import Mathlib

/-!
Verification development for the HD44780 LCD menu program
(`menu/lcdmenu.py`, `menu/controller.py`).  Python strings are modelled
as `List Char`; machine behaviour that can raise an exception
(IndexError, NameError, ZeroDivisionError, ...) is modelled with
`Option`, `none` standing for a raised exception.
-/

namespace HD44780

/-! ### CPython string primitive semantics -/

/-- Python `s.ljust(w)`: pad on the right with blanks up to width `w`;
a width not exceeding the current length (including any negative width)
leaves the string unchanged. -/
def pyLjust (s : List Char) (w : Int) : List Char :=
  s ++ List.replicate (w.toNat - s.length) ' '

/-- Python `s.rjust(w)`: pad on the left with blanks up to width `w`. -/
def pyRjust (s : List Char) (w : Int) : List Char :=
  List.replicate (w.toNat - s.length) ' ' ++ s

/-- Python `s.center(w)`.  CPython puts the extra fill character on the
left exactly when both the margin and the requested width are odd. -/
def pyCenter (s : List Char) (w : Int) : List Char :=
  let wn := w.toNat
  if wn ≤ s.length then s
  else
    let marg := wn - s.length
    let left := marg / 2 + (if wn % 2 = 1 then marg % 2 else 0)
    List.replicate left ' ' ++ s ++ List.replicate (marg - left) ' '

/-- Python slicing `s[i:j]` with the usual negative-index adjustment and
clamping. -/
def pySlice (s : List Char) (i j : Int) : List Char :=
  let len : Int := s.length
  let i2 := if i < 0 then max (len + i) 0 else min i len
  let j2 := if j < 0 then max (len + j) 0 else min j len
  (s.take j2.toNat).drop i2.toNat

/-- Python `a % b` on integers: floor-style remainder, raising
`ZeroDivisionError` (modelled as `none`) when `b = 0`. -/
def pyMod (a b : Int) : Option Int :=
  if b = 0 then none else some (Int.fmod a b)

/-! ### `MenuState._format` (lcdmenu.py, lines 446-469)

The redraw counter and the display width are the only pieces of
`MenuState` the method reads; they are passed explicitly. -/

/-- `MenuState._format(message, pre, post, just)` with `cols` the LCD
width and `counter` the redraw counter. -/
def format (cols : ℕ) (counter : ℕ) (message pre post : List Char)
    (just : Int) : Option (List Char) :=
  let length : Int := (cols : Int) - pre.length - post.length
  let justifiedOpt : Option (List Char) :=
    if (message.length : Int) > length then
      (pyMod (counter : Int) (length + 1)).map
        (fun start => pySlice (message ++ '|' :: message) start (start + length))
    else some message
  justifiedOpt.map (fun j0 =>
    let j1 := if just < 0 then pyLjust j0 length
              else if just = 0 then pyCenter j0 length
              else pyRjust j0 length
    pre ++ j1 ++ post)

/-- The rotating window exactly as claim C1 words it (for empty prefix
and suffix): a window of effective-width length taken from
`message ++ "|" ++ message` starting at `counter mod (len message + 1)`. -/
def claimC1Window (cols : ℕ) (counter : ℕ) (message : List Char) : List Char :=
  let start : Int := ((counter % (message.length + 1) : ℕ) : Int)
  pySlice (message ++ '|' :: message) start (start + (cols : Int))

/-! ### Facts about the string primitives -/

lemma pySlice_natCast_length (s : List Char) (i j : ℕ) (hij : i ≤ j)
    (hj : j ≤ s.length) : (pySlice s (i : Int) (j : Int)).length = j - i := by
  simp only [pySlice]
  rw [if_neg (by omega), if_neg (by omega)]
  have hi : min (i : Int) ((s.length : ℕ) : Int) = (i : Int) := by omega
  have hjm : min (j : Int) ((s.length : ℕ) : Int) = (j : Int) := by omega
  rw [hi, hjm, Int.toNat_natCast, Int.toNat_natCast]
  simp only [List.length_drop, List.length_take]
  omega

lemma pyLjust_length (s : List Char) (w : ℕ) :
    (pyLjust s (w : Int)).length = max s.length w := by
  simp only [pyLjust, List.length_append, List.length_replicate, Int.toNat_natCast]
  omega

lemma pyRjust_length (s : List Char) (w : ℕ) :
    (pyRjust s (w : Int)).length = max s.length w := by
  simp only [pyRjust, List.length_append, List.length_replicate, Int.toNat_natCast]
  omega

lemma pyCenter_length (s : List Char) (w : ℕ) :
    (pyCenter s (w : Int)).length = max s.length w := by
  simp only [pyCenter, Int.toNat_natCast]
  split
  · omega
  · simp only [List.length_append, List.length_replicate]
    split <;> omega

lemma pyLjust_exact (s : List Char) (w : ℕ) (h : s.length = w) :
    pyLjust s (w : Int) = s := by
  simp [pyLjust, h]

lemma pyRjust_exact (s : List Char) (w : ℕ) (h : s.length = w) :
    pyRjust s (w : Int) = s := by
  simp [pyRjust, h]

lemma pyCenter_exact (s : List Char) (w : ℕ) (h : s.length = w) :
    pyCenter s (w : Int) = s := by
  simp [pyCenter, h]

lemma pyMod_natCast (c L : ℕ) :
    pyMod (c : Int) ((L : Int) + 1) = some ((c % (L + 1) : ℕ) : Int) := by
  have hcast : ((L : Int) + 1) = ((L + 1 : ℕ) : Int) := by push_cast; ring
  unfold pyMod
  rw [if_neg (by omega), hcast, Int.fmod_eq_emod _ (by positivity)]
  norm_cast

/-- When the message overflows the effective width `L`, `_format`
returns exactly `pre ++ window ++ post`, the window being the
`L`-character slice of `message|message` starting at
`counter % (L + 1)` — for every justification mode. -/
lemma format_rotate (cols c : ℕ) (msg pre post : List Char) (just : Int)
    (hw : pre.length + post.length ≤ cols)
    (hlong : cols - pre.length - post.length < msg.length) :
    format cols c msg pre post just =
      some (pre ++ pySlice (msg ++ '|' :: msg)
        ((c % (cols - pre.length - post.length + 1) : ℕ) : Int)
        (((c % (cols - pre.length - post.length + 1) + (cols - pre.length - post.length) : ℕ)) : Int)
        ++ post) := by
  set L : ℕ := cols - pre.length - post.length with hLdef
  have hL : ((cols : Int) - pre.length - post.length) = (L : Int) := by omega
  have hmodlt : c % (L + 1) < L + 1 := Nat.mod_lt _ (by omega)
  have hslen : (pySlice (msg ++ '|' :: msg)
      ((c % (L + 1) : ℕ) : Int) ((c % (L + 1) + L : ℕ) : Int)).length = L := by
    rw [pySlice_natCast_length]
    · omega
    · omega
    · simp only [List.length_append, List.length_cons]
      omega
  simp only [format, hL]
  rw [if_pos (by exact_mod_cast hlong)]
  have hm := pyMod_natCast c L
  rw [hm]
  have hargs : ((c % (L + 1) : ℕ) : Int) + (L : Int) = ((c % (L + 1) + L : ℕ) : Int) := by
    push_cast; ring
  simp only [Option.map_some', hargs, Option.some.injEq]
  rcases lt_trichotomy just 0 with hj | hj | hj
  · rw [if_pos hj, pyLjust_exact _ _ hslen]
  · rw [if_neg (by omega), if_pos hj, pyCenter_exact _ _ hslen]
  · rw [if_neg (by omega), if_neg (by omega), pyRjust_exact _ _ hslen]

/-! ### Claim C1 -/

/-- Claim C1 (corrected form): for a message strictly longer than the
effective width `L = cols - len pre - len post`, the window is the
`L`-character slice of `message|message` starting at
`counter % (L + 1)` (not `counter % (len message + 1)`), and the window
therefore returns to the original one after `L + 1` redraw ticks. -/
theorem format_rotating_window (cols c : ℕ) (msg pre post : List Char) (just : Int)
    (hw : pre.length + post.length ≤ cols)
    (hlong : cols - pre.length - post.length < msg.length) :
    format cols c msg pre post just =
      some (pre ++ pySlice (msg ++ '|' :: msg)
        ((c % (cols - pre.length - post.length + 1) : ℕ) : Int)
        (((c % (cols - pre.length - post.length + 1) + (cols - pre.length - post.length) : ℕ)) : Int)
        ++ post)
    ∧ format cols (c + (cols - pre.length - post.length + 1)) msg pre post just =
        format cols c msg pre post just := by
  refine ⟨format_rotate cols c msg pre post just hw hlong, ?_⟩
  rw [format_rotate cols c msg pre post just hw hlong,
    format_rotate cols (c + (cols - pre.length - post.length + 1)) msg pre post just hw hlong,
    Nat.add_mod_right]

/-- Witness for `format_rotating_window`: a 5-character message on a
4-column display with no glyphs. -/
theorem format_rotating_window_witness :
    format 4 5 [ 'a','b','c','d','e' ] [] [] (-1) =
      some (pySlice ([ 'a','b','c','d','e' ] ++ '|' :: [ 'a','b','c','d','e' ])
        ((5 % 5 : ℕ) : Int) (((5 % 5 + 4 : ℕ)) : Int))
    ∧ format 4 (5 + 5) [ 'a','b','c','d','e' ] [] [] (-1) =
        format 4 5 [ 'a','b','c','d','e' ] [] [] (-1) := by
  have h := format_rotating_window 4 5 [ 'a','b','c','d','e' ] [] [] (-1)
    (by decide) (by decide)
  simpa using h

/-- Claim C1 as stated is false: with `msg = "abcde"` on a 4-column
display the formatter's window at tick 5 is `"abcd"`, already back to
the tick-0 window (period 5 = effective width + 1, not
`len msg + 1 = 6`), and it differs from the window the claim's formula
`counter mod (len msg + 1)` prescribes. -/
theorem format_rotating_window_cx :
    format 4 5 [ 'a','b','c','d','e' ] [] [] (-1) = some [ 'a','b','c','d' ]
    ∧ claimC1Window 4 5 [ 'a','b','c','d','e' ] = [ '|','a','b','c' ]
    ∧ format 4 5 [ 'a','b','c','d','e' ] [] [] (-1)
        ≠ some (claimC1Window 4 5 [ 'a','b','c','d','e' ])
    ∧ format 4 5 [ 'a','b','c','d','e' ] [] [] (-1)
        = format 4 0 [ 'a','b','c','d','e' ] [] [] (-1) := by
  refine ⟨by decide, by decide, by decide, by decide⟩

/-! ### Claim C2 -/

/-- Claim C2 (corrected form): `_format` returns a string of length
exactly `cols` whenever the prefix and suffix fit in the line, i.e.
`len pre + len post ≤ cols`; the claim's own premise `cols ≥ 0` is not
sufficient. -/
theorem format_length (cols c : ℕ) (msg pre post : List Char) (just : Int)
    (h : pre.length + post.length ≤ cols) :
    ∃ s, format cols c msg pre post just = some s ∧ s.length = cols := by
  by_cases hlong : cols - pre.length - post.length < msg.length
  · refine ⟨_, format_rotate cols c msg pre post just h hlong, ?_⟩
    set L : ℕ := cols - pre.length - post.length with hLdef
    have hmodlt : c % (L + 1) < L + 1 := Nat.mod_lt _ (by omega)
    have hslen : (pySlice (msg ++ '|' :: msg)
        ((c % (L + 1) : ℕ) : Int) ((c % (L + 1) + L : ℕ) : Int)).length = L := by
      rw [pySlice_natCast_length]
      · omega
      · omega
      · simp only [List.length_append, List.length_cons]
        omega
    simp only [List.length_append, hslen]
    omega
  · set L : ℕ := cols - pre.length - post.length with hLdef
    have hL : ((cols : Int) - pre.length - post.length) = (L : Int) := by omega
    have hfit : msg.length ≤ L := by omega
    simp only [format, hL]
    rw [if_neg (by exact_mod_cast hlong)]
    simp only [Option.map_some', Option.some.injEq]
    refine ⟨_, rfl, ?_⟩
    simp only [List.length_append]
    rcases lt_trichotomy just 0 with hj | hj | hj
    · rw [if_pos hj, pyLjust_length]
      omega
    · rw [if_neg (by omega), if_pos hj, pyCenter_length]
      omega
    · rw [if_neg (by omega), if_neg (by omega), pyRjust_length]
      omega

/-- Witness for `format_length`: the spec's own end-to-end example,
width 16, message `"Hello"`, prefix `"^"`, suffix `"*"`. -/
theorem format_length_witness :
    ∃ s, format 16 0 [ 'H','e','l','l','o' ] [ '^' ] [ '*' ] (-1) = some s
      ∧ s.length = 16 :=
  format_length 16 0 [ 'H','e','l','l','o' ] [ '^' ] [ '*' ] (-1) (by decide)

/-- Claim C2 as stated is false: with a 3-character prefix on a
2-column display (line width non-negative), `_format` raises
`ZeroDivisionError` (`counter % (length + 1)` with `length + 1 = 0`)
instead of returning a 2-character string. -/
theorem format_length_cx :
    format 2 0 [ 'x' ] [ 'a','b','c' ] [] (-1) = none := by decide

/-! ### `LCDBuffer` (lcdmenu.py, lines 92-263)

The device is represented by the trace of commands sent to it. -/

/-- A command sent to the LCD device. -/
inductive DevOp where
  | clearDev : DevOp
  | cursor (row col : ℕ) : DevOp
  | writeStr (s : List Char) : DevOp
deriving DecidableEq, Repr

/-- The state of `LCDBuffer`: the desired lines (`_buffer`), the shadow
of what was last written (`_written`), the width, and whether a real
LCD is attached. -/
structure LCDBuf where
  real : Bool
  cols : ℕ
  buffer : List (List Char)
  written : List (List Char)
deriving DecidableEq, Repr

/-- The scanning loop of `LCDBuffer._diff` (lines 205-216).  Walks the
indices of `a`, maintaining the open-run start `last`; reading `b[i]`
past the end raises `IndexError` (`none`). -/
def diffLoop (a b : List Char) :
    ℕ → ℕ → List (ℕ × ℕ) → Option ℕ → Option (List (ℕ × ℕ) × Option ℕ)
  | _, 0, diffs, last => some (diffs, last)
  | i, n + 1, diffs, last =>
    match a.get? i, b.get? i with
    | some ca, some cb =>
      if ca = cb then
        match last with
        | some ld => diffLoop a b (i + 1) n (diffs ++ [(ld, i + 1)]) none
        | none => diffLoop a b (i + 1) n diffs none
      else if i = 0 ∨ last = none then diffLoop a b (i + 1) n diffs (some i)
      else diffLoop a b (i + 1) n diffs last
    | _, _ => none

/-- The condensing loop of `LCDBuffer._diff` (lines 219-237): merge
spans whose gap is small enough that one contiguous write is cheaper. -/
def condenseLoop : List (ℕ × ℕ) → Option (ℕ × ℕ) → List (ℕ × ℕ) → List (ℕ × ℕ)
  | [], none, acc => acc
  | [], some pv, acc => acc ++ [pv]
  | d :: rest, none, acc => condenseLoop rest (some d) acc
  | d :: rest, some pv, acc =>
    if pv.2 + 2 > d.1 then condenseLoop rest (some (pv.1, d.2)) acc
    else condenseLoop rest (some d) (acc ++ [pv])

/-- `LCDBuffer._diff(a, b)` (lines 190-239).  `some none` is Python's
`None` (equal strings); the outer `none` is a raised exception: an
`IndexError` when `b` is shorter than `a` (the `b.ljust(len(b) -
length + 1)` normalisation pads by a non-positive width and so does
nothing), or the `NameError` on the undefined name `l` in
`diffs.append((last_diff, l))` when a run of differences is still open
at the end of the strings. -/
def lcdDiff (a b : List Char) : Option (Option (List (ℕ × ℕ))) :=
  if a = b then some none
  else
    let b2 := if b.length < a.length
      then pyLjust b ((b.length : Int) - (a.length : Int) + 1) else b
    match diffLoop a b2 0 a.length [] none with
    | none => none
    | some (_, some _) => none
    | some (diffs, none) => some (some (condenseLoop diffs none []))

/-- `LCDBuffer.set_line(line, text)` (lines 180-188); assigning past
the end of the buffer list raises `IndexError`. -/
def setLine (b : LCDBuf) (line : ℕ) (text : List Char) : Option LCDBuf :=
  if line < b.buffer.length
  then some { b with buffer := b.buffer.set line text }
  else none

/-- The row loop of `LCDBuffer.flush` (lines 243-249), accumulating the
updated shadow and the device commands. -/
def flushLoop (buf : List (List Char)) :
    ℕ → ℕ → List (List Char) → List DevOp → Option (List (List Char) × List DevOp)
  | _, 0, wr, ops => some (wr, ops)
  | i, n + 1, wr, ops =>
    match buf.get? i, wr.get? i with
    | some bi, some wi =>
      if bi = wi then flushLoop buf (i + 1) n wr ops
      else
        match lcdDiff bi wi with
        | none => none
        | some none => none
        | some (some ds) =>
          let ops2 := ops ++ ds.flatMap
            (fun sd => [DevOp.cursor i sd.1,
                        DevOp.writeStr (pySlice bi (sd.1 : Int) (sd.2 : Int))])
          flushLoop buf (i + 1) n (wr.set i bi) ops2
    | _, _ => none

/-- `LCDBuffer.flush` (lines 241-253): returns the updated buffer state
and the trace of device commands, or `none` when `_diff` raises. -/
def flush (b : LCDBuf) : Option (LCDBuf × List DevOp) :=
  (flushLoop b.buffer 0 b.buffer.length b.written []).map fun wrOps =>
    let ops := if b.real then wrOps.2
      else wrOps.2 ++ [DevOp.cursor 3 0, DevOp.writeStr ("Command? ".toList)]
    ({ b with written := wrOps.1 }, ops)

/-- `LCDBuffer.clear` (lines 177-178): it only forwards `clear` to the
device; `_buffer` and `_written` are left untouched. -/
def clearBuf (b : LCDBuf) : LCDBuf × List DevOp :=
  (b, [DevOp.clearDev])

/-- `LCDBuffer.flash(message)` (lines 255-263): clear, set line 0, flush. -/
def flash (b : LCDBuf) (message : List Char) : Option (LCDBuf × List DevOp) :=
  let c := clearBuf b
  (setLine c.1 0 message).bind fun b2 =>
    (flush b2).map fun fo => (fo.1, c.2 ++ fo.2)

/-! ### Claim C3 -/

/-- Claim C3 fails on the code: when a line differs from its shadow at
the last character, the still-open run makes `_diff` execute
`diffs.append((last_diff, l))` with the undefined name `l`, raising
`NameError`, so `flush` crashes (modelled as `none`) instead of writing
the changed span and updating the shadow.  Desired line `"ab"` against
shadow `"aa"` exhibits it. -/
theorem flush_diff_name_error :
    lcdDiff [ 'a','b' ] [ 'a','a' ] = none
    ∧ flush { real := true, cols := 2,
              buffer := [[ 'a','b' ]], written := [[ 'a','a' ]] } = none := by
  refine ⟨by decide, by decide⟩

/-! ### Claim C9 -/

/-- Claim C9 fails on the code (and the code contradicts `flash`'s own
docstring): `LCDBuffer.clear` only sends `clear` to the device and
resets neither `_buffer` nor `_written`.  Consequently
`flash("hi")` on a buffer whose stale shadow already reads `"hi"`
emits only the device clear and never writes the message, leaving the
physically cleared screen blank. -/
theorem clear_keeps_buffers :
    clearBuf { real := true, cols := 2,
               buffer := [[ 'h','i' ]], written := [[ 'h','i' ]] } =
      ({ real := true, cols := 2,
         buffer := [[ 'h','i' ]], written := [[ 'h','i' ]] }, [DevOp.clearDev])
    ∧ flash { real := true, cols := 2,
              buffer := [[ 'h','i' ]], written := [[ 'h','i' ]] } [ 'h','i' ] =
        some ({ real := true, cols := 2,
                buffer := [[ 'h','i' ]], written := [[ 'h','i' ]] },
              [DevOp.clearDev]) := by
  refine ⟨by decide, by decide⟩

/-! ### Menu items (lcdmenu.py, lines 597-646)

A menu item is a dict holding an id, text producers, a refresh rate, an
optional action and the `prev`/`next` sibling references.  The heap of
item dicts is modelled as a total map from identities (`ℕ`) to item
records; `prev`/`next`/parent references are identities.  An action is
either the tree builder's "push the first submenu item" closure or an
opaque external side effect. -/

/-- A menu item's action callback. -/
inductive Act where
  | pushAct (idx : ℕ) : Act
  | externalAct : Act
deriving DecidableEq, Repr

/-- One menu item dict.  `title`/`description` producers are modelled
by the text they return. -/
structure Item where
  id : ℕ
  title : List Char
  description : List Char
  refresh : ℕ
  action : Option Act
  prev : Option ℕ
  next : Option ℕ
deriving DecidableEq, Repr

instance : Inhabited Item := ⟨⟨0, [], [], 1, none, none, none⟩⟩

/-- The heap of menu item dicts. -/
abbrev Arena : Type := ℕ → Item

/-- `a[NEXT] = b` for the item stored at `a`. -/
def setNext (ar : Arena) (a v : ℕ) : Arena :=
  fun x => if x = a then { ar a with next := some v } else ar x

/-- `b[PREV] = a` for the item stored at `b`. -/
def setPrev (ar : Arena) (b v : ℕ) : Arena :=
  fun x => if x = b then { ar b with prev := some v } else ar x

/-- `parent[ACTION] = ...` for the item stored at `p`. -/
def setAction (ar : Arena) (p : ℕ) (a : Act) : Arena :=
  fun x => if x = p then { ar x with action := some a } else ar x

/-- The local `link(a, b)` of `create_submenu` (lines 633-635):
`a[NEXT] = b; b[PREV] = a`. -/
def linkPair (ar : Arena) (a b : ℕ) : Arena :=
  setPrev (setNext ar a b) b a

/-- The linking loop of `create_submenu` (lines 637-640): `prev` starts
at the last item and each item is linked after the running `prev`. -/
def linkLoop : List ℕ → Arena → ℕ → Arena
  | [], ar, _ => ar
  | i :: rest, ar, p => linkLoop rest (linkPair ar p i) i

/-- `create_submenu(parent, *menu_items)` (lines 624-646) over item
identities; an empty item list raises `IndexError` on
`menu_items[-1]`.  Returns the new heap and the returned item. -/
def create_submenu (ar : Arena) (parent : Option ℕ) (items : List ℕ) :
    Option (Arena × ℕ) :=
  (items.getLast?).map fun lastIdx =>
    let ar2 := linkLoop items ar lastIdx
    match parent with
    | some p => (setAction ar2 p (Act.pushAct (items.headD 0)), p)
    | none => (ar2, items.headD 0)

/-- Follow the `next` reference `n` times; `none` when a reference is
absent along the way. -/
def followNext (ar : Arena) : ℕ → ℕ → Option ℕ
  | 0, i => some i
  | n + 1, i =>
    match (ar i).next with
    | none => none
    | some j => followNext ar n j

/-! ### The linking loop builds a doubly-linked ring -/

lemma setNext_apply_next (ar : Arena) (a v x : ℕ) :
    ((setNext ar a v) x).next = if x = a then some v else (ar x).next := by
  unfold setNext
  split <;> simp_all

lemma setNext_apply_prev (ar : Arena) (a v x : ℕ) :
    ((setNext ar a v) x).prev = (ar x).prev := by
  unfold setNext
  split <;> simp_all

lemma setPrev_apply_prev (ar : Arena) (b v x : ℕ) :
    ((setPrev ar b v) x).prev = if x = b then some v else (ar x).prev := by
  unfold setPrev
  split <;> simp_all

lemma setPrev_apply_next (ar : Arena) (b v x : ℕ) :
    ((setPrev ar b v) x).next = (ar x).next := by
  unfold setPrev
  split <;> simp_all

lemma setAction_apply_next (ar : Arena) (p : ℕ) (a : Act) (x : ℕ) :
    ((setAction ar p a) x).next = (ar x).next := by
  unfold setAction
  split <;> simp_all

lemma setAction_apply_prev (ar : Arena) (p : ℕ) (a : Act) (x : ℕ) :
    ((setAction ar p a) x).prev = (ar x).prev := by
  unfold setAction
  split <;> simp_all

lemma linkPair_next (ar : Arena) (a b x : ℕ) :
    ((linkPair ar a b) x).next = if x = a then some b else (ar x).next := by
  unfold linkPair
  rw [setPrev_apply_next, setNext_apply_next]

lemma linkPair_prev (ar : Arena) (a b x : ℕ) :
    ((linkPair ar a b) x).prev = if x = b then some a else (ar x).prev := by
  unfold linkPair
  rw [setPrev_apply_prev, setNext_apply_prev]

/-- `next` references of identities that are neither the running `prev`
nor an interior list element are untouched by the linking loop. -/
lemma linkLoop_next_frame : ∀ (l : List ℕ) (ar : Arena) (p j : ℕ),
    j ≠ p → j ∉ l.dropLast → ((linkLoop l ar p) j).next = (ar j).next := by
  intro l
  induction l with
  | nil => intro ar p j _ _; rfl
  | cons i rest ih =>
    intro ar p j hjp hj
    cases rest with
    | nil =>
      show ((linkPair ar p i) j).next = (ar j).next
      rw [linkPair_next, if_neg hjp]
    | cons r rs =>
      rw [show (i :: r :: rs).dropLast = i :: (r :: rs).dropLast from rfl] at hj
      have hji : j ≠ i := fun h => hj (h ▸ List.mem_cons_self _ _)
      have hj2 : j ∉ (r :: rs).dropLast := fun h => hj (List.mem_cons_of_mem _ h)
      show ((linkLoop (r :: rs) (linkPair ar p i) i) j).next = (ar j).next
      rw [ih (linkPair ar p i) i j hji hj2, linkPair_next, if_neg hjp]

/-- `prev` references of identities outside the list are untouched by
the linking loop. -/
lemma linkLoop_prev_frame : ∀ (l : List ℕ) (ar : Arena) (p j : ℕ),
    j ∉ l → ((linkLoop l ar p) j).prev = (ar j).prev := by
  intro l
  induction l with
  | nil => intro ar p j _; rfl
  | cons i rest ih =>
    intro ar p j hj
    have hji : j ≠ i := fun h => hj (h ▸ List.mem_cons_self _ _)
    have hj2 : j ∉ rest := fun h => hj (List.mem_cons_of_mem _ h)
    show ((linkLoop rest (linkPair ar p i) i) j).prev = (ar j).prev
    rw [ih (linkPair ar p i) i j hj2, linkPair_prev, if_neg hji]

/-- After the loop, the running `prev`'s `next` points at the first
list element — the wrap-around link. -/
lemma linkLoop_next_head (i : ℕ) (rest : List ℕ) (ar : Arena) (p : ℕ)
    (hp : p ∉ (i :: rest).dropLast) :
    ((linkLoop (i :: rest) ar p) p).next = some i := by
  cases rest with
  | nil =>
    show ((linkPair ar p i) p).next = some i
    rw [linkPair_next, if_pos rfl]
  | cons r rs =>
    rw [show (i :: r :: rs).dropLast = i :: (r :: rs).dropLast from rfl] at hp
    have hpi : p ≠ i := fun h => hp (h ▸ List.mem_cons_self _ _)
    have hp2 : p ∉ (r :: rs).dropLast := fun h => hp (List.mem_cons_of_mem _ h)
    show ((linkLoop (r :: rs) (linkPair ar p i) i) p).next = some i
    rw [linkLoop_next_frame _ _ _ _ hpi hp2, linkPair_next, if_pos rfl]

/-- After the loop, the first list element's `prev` points at the
running `prev` — the wrap-around link. -/
lemma linkLoop_prev_head (i : ℕ) (rest : List ℕ) (ar : Arena) (p : ℕ)
    (hi : i ∉ rest) :
    ((linkLoop (i :: rest) ar p) i).prev = some p := by
  show ((linkLoop rest (linkPair ar p i) i) i).prev = some p
  rw [linkLoop_prev_frame rest _ i i hi, linkPair_prev, if_pos rfl]

/-- Consecutive list elements are linked forward. -/
lemma linkLoop_next_consec : ∀ (l : List ℕ) (ar : Arena) (p k a b : ℕ),
    l.Nodup → l[k]? = some a → l[k + 1]? = some b →
    ((linkLoop l ar p) a).next = some b := by
  intro l
  induction l with
  | nil => intro ar p k a b _ hk _; simp at hk
  | cons i rest ih =>
    intro ar p k a b hnd hk hk1
    cases k with
    | zero =>
      have ha : i = a := by simpa using hk
      cases rest with
      | nil => simp at hk1
      | cons r rs =>
        have hb : r = b := by simpa using hk1
        subst ha
        subst hb
        show ((linkLoop (r :: rs) (linkPair ar p i) i) i).next = some r
        exact linkLoop_next_head r rs _ i
          (fun h => (List.nodup_cons.mp hnd).1 (List.dropLast_subset _ h))
    | succ k2 =>
      rw [List.getElem?_cons_succ] at hk hk1
      show ((linkLoop rest (linkPair ar p i) i) a).next = some b
      exact ih (linkPair ar p i) i k2 a b (List.Nodup.of_cons hnd) hk hk1

/-- Consecutive list elements are linked backward. -/
lemma linkLoop_prev_consec : ∀ (l : List ℕ) (ar : Arena) (p k a b : ℕ),
    l.Nodup → l[k]? = some a → l[k + 1]? = some b →
    ((linkLoop l ar p) b).prev = some a := by
  intro l
  induction l with
  | nil => intro ar p k a b _ hk _; simp at hk
  | cons i rest ih =>
    intro ar p k a b hnd hk hk1
    cases k with
    | zero =>
      have ha : i = a := by simpa using hk
      cases rest with
      | nil => simp at hk1
      | cons r rs =>
        have hb : r = b := by simpa using hk1
        subst ha
        subst hb
        show ((linkLoop (r :: rs) (linkPair ar p i) i) r).prev = some i
        exact linkLoop_prev_head r rs _ i (List.nodup_cons.mp (List.Nodup.of_cons hnd)).1
    | succ k2 =>
      rw [List.getElem?_cons_succ] at hk hk1
      show ((linkLoop rest (linkPair ar p i) i) b).prev = some a
      exact ih (linkPair ar p i) i k2 a b (List.Nodup.of_cons hnd) hk hk1

/-- In a duplicate-free list the last element does not occur earlier. -/
lemma not_mem_dropLast_of_nodup (l : List ℕ) (p : ℕ) (hnd : l.Nodup)
    (hp : l.getLast? = some p) : p ∉ l.dropLast := by
  intro hmem
  have hne : l ≠ [] := by
    intro h
    subst h
    simp at hp
  have hgl : l.getLast hne = p := by
    rw [List.getLast?_eq_getLast l hne] at hp
    exact Option.some.inj hp
  have hsplit := List.dropLast_concat_getLast hne
  rw [hgl] at hsplit
  rw [← hsplit] at hnd
  rcases List.nodup_append.mp hnd with ⟨-, -, hdisj⟩
  exact hdisj hmem (List.mem_singleton_self p)

/-- The forward link of any list element, wrap-around included: `next`
of the element at `k` is the element at `(k + 1) % length`. -/
lemma ring_next (l : List ℕ) (ar : Arena) (p : ℕ) (hnd : l.Nodup)
    (hp : l.getLast? = some p) (k a : ℕ) (hk : l[k]? = some a) :
    ((linkLoop l ar p) a).next = l[(k + 1) % l.length]? := by
  have hklt : k < l.length := by
    rcases List.getElem?_eq_some.mp hk with ⟨h, -⟩
    exact h
  by_cases hk1 : k + 1 < l.length
  · rw [Nat.mod_eq_of_lt hk1, List.getElem?_eq_getElem hk1]
    exact linkLoop_next_consec l ar p k a _ hnd hk (List.getElem?_eq_getElem hk1)
  · have hlen : k + 1 = l.length := by omega
    have hpa : p = a := by
      rw [List.getLast?_eq_getElem?] at hp
      rw [show l.length - 1 = k from by omega] at hp
      rw [hk] at hp
      exact (Option.some.inj hp).symm
    have hmod : (k + 1) % l.length = 0 := by
      rw [hlen, Nat.mod_self]
    rw [hmod]
    cases l with
    | nil => simp at hk
    | cons i rest =>
      rw [List.getElem?_cons_zero]
      subst hpa
      exact linkLoop_next_head i rest ar p (not_mem_dropLast_of_nodup _ p hnd hp)

/-- The backward link of any list element, wrap-around included: `prev`
of the element at `k` is the element at `(k + length - 1) % length`. -/
lemma ring_prev (l : List ℕ) (ar : Arena) (p : ℕ) (hnd : l.Nodup)
    (hp : l.getLast? = some p) (k a : ℕ) (hk : l[k]? = some a) :
    ((linkLoop l ar p) a).prev = l[(k + (l.length - 1)) % l.length]? := by
  have hklt : k < l.length := by
    rcases List.getElem?_eq_some.mp hk with ⟨h, -⟩
    exact h
  cases k with
  | zero =>
    cases l with
    | nil => simp at hk
    | cons i rest =>
      have ha : i = a := by simpa using hk
      subst ha
      have hmod : (0 + ((i :: rest).length - 1)) % (i :: rest).length =
          (i :: rest).length - 1 := by
        rw [Nat.zero_add]
        exact Nat.mod_eq_of_lt (by simp)
      rw [hmod, ← List.getLast?_eq_getElem?, hp]
      exact linkLoop_prev_head i rest ar p (List.nodup_cons.mp hnd).1
  | succ k2 =>
    have hk2 : k2 + 1 < l.length := hklt
    have hb : ∃ b, l[k2]? = some b :=
      ⟨_, List.getElem?_eq_getElem (by omega)⟩
    rcases hb with ⟨b, hb⟩
    rw [linkLoop_prev_consec l ar p k2 b a hnd hb hk]
    have harith : (k2 + 1 + (l.length - 1)) % l.length = k2 := by
      rw [show k2 + 1 + (l.length - 1) = k2 + l.length from by omega,
        Nat.add_mod_right, Nat.mod_eq_of_lt (by omega)]
    rw [harith, hb]

/-- Iterating `next` from the element at `k` lands on the element at
`(k + m) % length`. -/
lemma followNext_ring (l : List ℕ) (ar : Arena) (p : ℕ) (hnd : l.Nodup)
    (hp : l.getLast? = some p) :
    ∀ (m k a : ℕ), l[k]? = some a →
      followNext (linkLoop l ar p) m a = l[(k + m) % l.length]? := by
  intro m
  induction m with
  | zero =>
    intro k a hk
    have hklt : k < l.length := by
      rcases List.getElem?_eq_some.mp hk with ⟨h, -⟩
      exact h
    show some a = l[(k + 0) % l.length]?
    rw [Nat.add_zero, Nat.mod_eq_of_lt hklt, hk]
  | succ m2 ih =>
    intro k a hk
    have hklt : k < l.length := by
      rcases List.getElem?_eq_some.mp hk with ⟨h, -⟩
      exact h
    have hnext := ring_next l ar p hnd hp k a hk
    have hlt : (k + 1) % l.length < l.length := Nat.mod_lt _ (by omega)
    have hb : ∃ b, l[(k + 1) % l.length]? = some b :=
      ⟨_, List.getElem?_eq_getElem hlt⟩
    rcases hb with ⟨b, hb⟩
    show (match ((linkLoop l ar p) a).next with
          | none => none
          | some j => followNext (linkLoop l ar p) m2 j) = _
    rw [hnext, hb]
    show followNext (linkLoop l ar p) m2 b = _
    rw [ih ((k + 1) % l.length) b hb, Nat.mod_add_mod,
      show k + 1 + m2 = k + (m2 + 1) from by omega]

/-- `followNext` only reads `next` references, which `setAction` keeps. -/
lemma followNext_setAction (ar : Arena) (q : ℕ) (act : Act) :
    ∀ (m i : ℕ), followNext (setAction ar q act) m i = followNext ar m i := by
  intro m
  induction m with
  | zero => intro i; rfl
  | succ m2 ih =>
    intro i
    show (match ((setAction ar q act) i).next with
          | none => none
          | some j => followNext (setAction ar q act) m2 j) =
        (match (ar i).next with
          | none => none
          | some j => followNext ar m2 j)
    rw [setAction_apply_next]
    cases (ar i).next with
    | none => rfl
    | some j => exact ih j

/-- Helper for claim C6: the linked heap produced by a successful
`create_submenu`, described pointwise. -/
lemma create_submenu_heap (ar : Arena) (parent : Option ℕ) (items : List ℕ)
    (p : ℕ) (hlast : items.getLast? = some p) (ar2 : Arena) (r : ℕ)
    (h : create_submenu ar parent items = some (ar2, r)) :
    (∀ x, (ar2 x).next = ((linkLoop items ar p) x).next)
    ∧ (∀ x, (ar2 x).prev = ((linkLoop items ar p) x).prev)
    ∧ (∀ m i, followNext ar2 m i = followNext (linkLoop items ar p) m i) := by
  cases parent with
  | none =>
    simp only [create_submenu, hlast, Option.map_some', Option.some.injEq] at h
    have hA : linkLoop items ar p = ar2 := congrArg Prod.fst h
    refine ⟨fun x => by rw [← hA], fun x => by rw [← hA], fun m i => by rw [← hA]⟩
  | some q =>
    simp only [create_submenu, hlast, Option.map_some', Option.some.injEq] at h
    have hA : setAction (linkLoop items ar p) q (Act.pushAct (items.headD 0)) = ar2 :=
      congrArg Prod.fst h
    refine ⟨fun x => ?_, fun x => ?_, fun m i => ?_⟩
    · rw [← hA, setAction_apply_next]
    · rw [← hA, setAction_apply_prev]
    · rw [← hA, followNext_setAction]

/-! ### Claim C6 -/

/-- Claim C6: a ring built by `create_submenu` from `N ≥ 1` distinct
items is closed: following `next` `N` times from any member returns to
it, and following `prev` then `next` from any member returns to it; in
particular a single-item ring has `prev` and `next` pointing at the
item itself. -/
theorem submenu_ring (ar : Arena) (parent : Option ℕ) (items : List ℕ)
    (hnd : items.Nodup) (ar2 : Arena) (r : ℕ)
    (h : create_submenu ar parent items = some (ar2, r)) :
    (∀ (k a : ℕ), items[k]? = some a →
        followNext ar2 items.length a = some a
      ∧ ∃ b, (ar2 a).prev = some b ∧ (ar2 b).next = some a)
    ∧ (∀ i, items = [i] → (ar2 i).prev = some i ∧ (ar2 i).next = some i) := by
  cases hlast : items.getLast? with
  | none =>
    rw [create_submenu, hlast] at h
    simp at h
  | some p =>
    obtain ⟨hnx, hpv, hfl⟩ := create_submenu_heap ar parent items p hlast ar2 r h
    constructor
    · intro k a hk
      have hklt : k < items.length := (List.getElem?_eq_some.mp hk).1
      constructor
      · rw [hfl, followNext_ring items ar p hnd hlast items.length k a hk,
          Nat.add_mod_right, Nat.mod_eq_of_lt hklt, hk]
      · have hblt : (k + (items.length - 1)) % items.length < items.length :=
          Nat.mod_lt _ (by omega)
        obtain ⟨b, hb⟩ : ∃ b,
            items[(k + (items.length - 1)) % items.length]? = some b :=
          ⟨_, List.getElem?_eq_getElem hblt⟩
        refine ⟨b, ?_, ?_⟩
        · rw [hpv, ring_prev items ar p hnd hlast k a hk, hb]
        · rw [hnx, ring_next items ar p hnd hlast _ b hb, Nat.mod_add_mod,
            show k + (items.length - 1) + 1 = k + items.length from by omega,
            Nat.add_mod_right, Nat.mod_eq_of_lt hklt, hk]
    · intro i hi
      subst hi
      have hpi : p = i := by
        simp only [List.getLast?_singleton, Option.some.injEq] at hlast
        exact hlast.symm
      subst hpi
      constructor
      · rw [hpv, ring_prev [p] ar p hnd hlast 0 p (by simp)]
        simp
      · rw [hnx, ring_next [p] ar p hnd hlast 0 p (by simp)]
        simp

/-- The heap for the witness ring: three fresh items. -/
def arenaW : Arena := fun _ => default

/-- The witness ring: `create_submenu` over items `0, 1, 2`. -/
def arenaW2 : Arena := linkLoop [0, 1, 2] arenaW 2

/-- Witness for `submenu_ring`: in the three-item ring, three `next`
steps from item 0 return to item 0, and `prev` then `next` returns to
it as well. -/
theorem submenu_ring_witness :
    followNext arenaW2 3 0 = some 0
    ∧ ∃ b, (arenaW2 0).prev = some b ∧ (arenaW2 b).next = some 0 := by
  have h := (submenu_ring arenaW none [0, 1, 2] (by decide) arenaW2 0 rfl).1 0 0 rfl
  exact h

/-! ### `MenuState._draw_text` glyph suffix (lcdmenu.py, lines 423-444) -/

/-- The up-menu glyph: custom character 0 on a real LCD, `'^'` on the
terminal simulation. -/
def upGlyph (b : LCDBuf) : Char :=
  if b.real then Char.ofNat 0 else '^'

/-- The left/right (has-siblings) glyph: custom character 1 on a real
LCD, `'='` on the terminal simulation. -/
def lrGlyph (b : LCDBuf) : Char :=
  if b.real then Char.ofNat 1 else '='

/-- The action glyph: custom character 2 on a real LCD, `'*'` on the
terminal simulation. -/
def execGlyph (b : LCDBuf) : Char :=
  if b.real then Char.ofNat 2 else '*'

/-- The suffix `post` computed by `_draw_text` (lines 432-438): the
left/right glyph when `prev` and `next` are both present and name
different item ids, then the action glyph when an action is present. -/
def computePost (ar : Arena) (lr ex : Char) (it : Item) : List Char :=
  (match it.prev, it.next with
   | some p, some q => if (ar p).id ≠ (ar q).id then [lr] else []
   | _, _ => []) ++
  (if it.action.isSome then [ex] else [])

/-! ### Claim C10 -/

/-- Claim C10: with both sibling references present, the has-siblings
glyph appears in the drawn suffix exactly when `prev` and `next` name
items with different ids — so in a two-item ring, where both point at
the same sibling, the glyph is omitted. -/
theorem sibling_glyph (ar : Arena) (b : LCDBuf) (it : Item) (p q : ℕ)
    (hp : it.prev = some p) (hq : it.next = some q) :
    lrGlyph b ∈ computePost ar (lrGlyph b) (execGlyph b) it ↔
      (ar p).id ≠ (ar q).id := by
  have hne : lrGlyph b ≠ execGlyph b := by
    cases hb : b.real <;> simp [lrGlyph, execGlyph, hb]
  simp only [computePost, hp, hq]
  by_cases hid : (ar p).id = (ar q).id
  · simp only [hid, ne_eq, not_true_eq_false, if_false, List.nil_append]
    constructor
    · intro hmem
      exfalso
      rcases hio : it.action.isSome with _ | _ <;> rw [hio] at hmem
      · simp at hmem
      · rcases List.mem_singleton.mp hmem with h2
        exact hne h2
    · intro hcon
      exact hcon.elim
  · simp only [hid, ne_eq, not_false_eq_true, if_true]
    constructor
    · intro _
      trivial
    · intro _
      exact List.mem_append_left _ (List.mem_singleton_self _)

/-- Witness for `sibling_glyph`: an item of a two-element ring, whose
`prev` and `next` both reference item 1; the glyph is absent. -/
theorem sibling_glyph_witness :
    lrGlyph { real := false, cols := 16, buffer := [], written := [] } ∈
      computePost arenaW
        (lrGlyph { real := false, cols := 16, buffer := [], written := [] })
        (execGlyph { real := false, cols := 16, buffer := [], written := [] })
        { id := 0, title := [], description := [], refresh := 1,
          action := none, prev := some 1, next := some 1 } ↔
      (arenaW 1).id ≠ (arenaW 1).id :=
  sibling_glyph arenaW _ _ 1 1 rfl rfl

/-! ### `MenuState` (lcdmenu.py, lines 268-502)

The navigator stack holds item identities, bottom first (Python appends
to the end of `_stack`, so the top is the last element).  The two
`threading.Timer`s are modelled by an armed flag plus a generation
counter: cancelling-and-restarting a timer bumps the generation, which
is how "a fresh timer was started" is observable.  Device commands
issued along the way are not tracked at this level (they are the
`LCDBuf` trace). -/

structure MState where
  arena : Arena
  stack : List ℕ
  counter : ℕ
  backlightOn : Bool
  blArmed : Bool
  blGen : ℕ
  updArmed : Bool
  updGen : ℕ
  lcd : LCDBuf

/-- `MenuState._touch` (lines 321-338): reset the redraw counter, turn
the backlight on, cancel any running backlight timer and start a fresh
one. -/
def touch (s : MState) : MState :=
  { s with counter := 0, backlightOn := true, blArmed := true,
           blGen := s.blGen + 1 }

/-- `MenuState.peek` (lines 362-370). -/
def peek (s : MState) : Option ℕ :=
  s.stack.getLast?

/-- `MenuState._set_update_time` (lines 409-421): cancel the update
timer and arm a fresh one, but only while the backlight is on. -/
def setUpdateTime (s : MState) : MState :=
  if s.backlightOn = true
  then { s with updArmed := true, updGen := s.updGen + 1 }
  else s

/-- `MenuState.display` (lines 398-407): touch, then either schedule a
redraw of the current item or, with an empty stack, cancel the update
timer and clear the LCD. -/
def display (s : MState) : MState :=
  let s1 := touch s
  match peek s1 with
  | some _ => setUpdateTime s1
  | none => { s1 with updArmed := false }

/-- `MenuState.push` (lines 342-350). -/
def push (s : MState) (i : ℕ) : MState :=
  display { s with stack := s.stack ++ [i] }

/-- `MenuState.swap` (lines 352-360); `self._stack[-1] = item` raises
`IndexError` on an empty stack. -/
def swap (s : MState) (i : ℕ) : Option MState :=
  match s.stack with
  | [] => none
  | _ :: _ => some (display { s with stack := s.stack.dropLast ++ [i] })

/-- `MenuState.pop` (lines 372-382): reading `self._stack[-1]` raises
on an empty stack; at depth 1 the state is returned untouched; deeper,
the top is dropped and the display updated.  Returns the new state and
the item that was on top. -/
def pop (s : MState) : Option (MState × ℕ) :=
  match s.stack.getLast? with
  | none => none
  | some top =>
    if s.stack.length = 1 then some (s, top)
    else some (display { s with stack := s.stack.dropLast }, top)

/-- `MenuState.do_up` (lines 478-480). -/
def do_up (s : MState) : Option MState :=
  (pop s).map Prod.fst

/-- `MenuState.do_prev` (lines 490-495): `peek()` returning `None`
makes `menu_item[PREV]` raise `TypeError`; an absent `prev` reference
is a no-op. -/
def do_prev (s : MState) : Option MState :=
  match peek s with
  | none => none
  | some top =>
    match (s.arena top).prev with
    | some p => swap s p
    | none => some s

/-- `MenuState.do_next` (lines 497-502). -/
def do_next (s : MState) : Option MState :=
  match peek s with
  | none => none
  | some top =>
    match (s.arena top).next with
    | some q => swap s q
    | none => some s

/-- Run an action callback: the tree builder's action pushes the first
submenu item; an external action mutates only state outside the model. -/
def runAct (s : MState) : Act → MState
  | Act.pushAct i => push s i
  | Act.externalAct => s

/-- `MenuState.do_action` (lines 482-488): run the action when present,
then always redisplay. -/
def do_action (s : MState) : Option MState :=
  match peek s with
  | none => none
  | some top =>
    let s1 := match (s.arena top).action with
      | some a => runAct s a
      | none => s
    some (display s1)

/-- The backlight timer firing (`dim`, lines 331-334): the timer is
spent, the pending update timer is cancelled, the backlight goes off.
An unarmed timer cannot fire. -/
def dimFire (s : MState) : MState :=
  if s.blArmed = true
  then { s with blArmed := false, updArmed := false, backlightOn := false }
  else s

/-- `MenuState._draw_text` (lines 423-444): format the two lines, store
them, flush, and re-arm the update timer (only while the backlight is
on, via `_set_update_time`). -/
def drawText (s : MState) (idx : ℕ) : Option MState :=
  let it := s.arena idx
  let pre := if s.stack.length = 1 then [] else [upGlyph s.lcd]
  let post := computePost s.arena (lrGlyph s.lcd) (execGlyph s.lcd) it
  (format s.lcd.cols s.counter it.title pre post (-1)).bind fun l0 =>
    (format s.lcd.cols s.counter it.description [] [] 1).bind fun l1 =>
      (setLine s.lcd 0 l0).bind fun lcd1 =>
        (setLine lcd1 1 l1).bind fun lcd2 =>
          (flush lcd2).map fun fo =>
            setUpdateTime { s with lcd := fo.1 }

/-- The update timer firing: a spent timer redraws the captured item
(the current top) and `_draw_text` re-arms it; an unarmed timer cannot
fire. -/
def redrawFire (s : MState) : Option MState :=
  if s.updArmed = true then
    match peek s with
    | some top => drawText { s with updArmed := false } top
    | none => some { s with updArmed := false }
  else some s

/-! ### Facts about `display` and the timers -/

lemma display_backlightOn (s : MState) : (display s).backlightOn = true := by
  simp only [display]
  split <;> simp [setUpdateTime, touch]

lemma display_blArmed (s : MState) : (display s).blArmed = true := by
  simp only [display]
  split <;> simp [setUpdateTime, touch]

lemma display_blGen (s : MState) : (display s).blGen = s.blGen + 1 := by
  simp only [display]
  split <;> simp [setUpdateTime, touch]

lemma display_stack (s : MState) : (display s).stack = s.stack := by
  simp only [display]
  split <;> simp [setUpdateTime, touch]

lemma runAct_blGen (s : MState) (a : Act) : s.blGen ≤ (runAct s a).blGen := by
  cases a with
  | pushAct i =>
    show s.blGen ≤ (display { s with stack := s.stack ++ [i] }).blGen
    rw [display_blGen]
    exact Nat.le_succ s.blGen
  | externalAct => exact le_refl _

/-! ### Claim C5 -/

/-- Claim C5: on a non-empty stack, `pop` at depth 1 returns the state
completely unchanged together with the top item; at greater depth it
drops the top of the stack and still returns the old top. -/
theorem pop_spec (s : MState) (top : ℕ) (h : peek s = some top) :
    (s.stack.length = 1 → pop s = some (s, top))
    ∧ (1 < s.stack.length →
        ∃ t, pop s = some (t, top) ∧ t.stack = s.stack.dropLast) := by
  unfold peek at h
  constructor
  · intro h1
    simp only [pop, h, if_pos h1]
  · intro h1
    simp only [pop, h, if_neg (show ¬s.stack.length = 1 from by omega)]
    refine ⟨_, rfl, ?_⟩
    rw [display_stack]

/-- The LCD buffer used by the concrete example states. -/
def lcdW : LCDBuf :=
  { real := false, cols := 16,
    buffer := [List.replicate 16 ' ', List.replicate 16 ' '],
    written := [List.replicate 16 ' ', List.replicate 16 ' '] }

/-- A concrete root-depth state over the witness ring. -/
def exRoot : MState :=
  { arena := arenaW2, stack := [0], counter := 0, backlightOn := true,
    blArmed := true, blGen := 0, updArmed := false, updGen := 0, lcd := lcdW }

/-- A concrete depth-2 state over the witness ring. -/
def exDeep : MState :=
  { arena := arenaW2, stack := [0, 1], counter := 0, backlightOn := true,
    blArmed := true, blGen := 0, updArmed := false, updGen := 0, lcd := lcdW }

/-- A concrete empty-stack state. -/
def exEmpty : MState :=
  { arena := arenaW2, stack := [], counter := 0, backlightOn := true,
    blArmed := true, blGen := 0, updArmed := false, updGen := 0, lcd := lcdW }

/-- Witness for `pop_spec`: popping the depth-1 state leaves it
untouched and returns its top. -/
theorem pop_spec_witness : pop exRoot = some (exRoot, 0) :=
  (pop_spec exRoot 0 rfl).1 rfl

/-! ### Claim C4 -/

/-- Claim C4 as stated is false: on the empty stack, `pop` and `swap`
hit `self._stack[-1]` (`IndexError`) and `do_prev`/`do_next`/`do_action`
subscript `peek()`'s `None` (`TypeError`); none of them is a no-op. -/
theorem nav_total_cx :
    pop exEmpty = none ∧ swap exEmpty 3 = none ∧ do_up exEmpty = none
    ∧ do_prev exEmpty = none ∧ do_next exEmpty = none
    ∧ do_action exEmpty = none :=
  ⟨rfl, rfl, rfl, rfl, rfl, rfl⟩

/-- Claim C4 (corrected form): on every *non-empty* stack none of the
navigation operations raises; an absent `prev`/`next` reference makes
`do_prev`/`do_next` return the state unchanged, and an absent action
leaves the stack unchanged (`do_action` still redisplays).  (`push` and
`peek` are total by construction.) -/
theorem nav_total (s : MState) (hne : s.stack ≠ []) :
    (pop s).isSome = true
    ∧ (∀ i, (swap s i).isSome = true)
    ∧ (do_up s).isSome = true
    ∧ (do_prev s).isSome = true
    ∧ (do_next s).isSome = true
    ∧ (do_action s).isSome = true
    ∧ (∀ top, peek s = some top → (s.arena top).prev = none → do_prev s = some s)
    ∧ (∀ top, peek s = some top → (s.arena top).next = none → do_next s = some s)
    ∧ (∀ top, peek s = some top → (s.arena top).action = none →
        ∃ t, do_action s = some t ∧ t.stack = s.stack) := by
  obtain ⟨top, htop⟩ : ∃ top, s.stack.getLast? = some top := by
    cases h : s.stack.getLast? with
    | none => exact absurd (List.getLast?_eq_none_iff.mp h) hne
    | some t => exact ⟨t, rfl⟩
  have hpop : (pop s).isSome = true := by
    simp only [pop, htop]
    split <;> rfl
  have hswap : ∀ i, (swap s i).isSome = true := by
    intro i
    unfold swap
    cases hs : s.stack with
    | nil => exact absurd hs hne
    | cons a rest => rfl
  refine ⟨hpop, hswap, ?_, ?_, ?_, ?_, ?_, ?_, ?_⟩
  · unfold do_up
    cases hp : pop s with
    | none => rw [hp] at hpop; simp at hpop
    | some pr => rfl
  · simp only [do_prev, peek, htop]
    cases hpv : (s.arena top).prev with
    | none => rfl
    | some p => exact hswap p
  · simp only [do_next, peek, htop]
    cases hnx : (s.arena top).next with
    | none => rfl
    | some q => exact hswap q
  · simp only [do_action, peek, htop]
    rfl
  · intro t ht hpv
    unfold peek at ht
    rw [htop] at ht
    cases ht
    simp only [do_prev, peek, htop, hpv]
  · intro t ht hnx
    unfold peek at ht
    rw [htop] at ht
    cases ht
    simp only [do_next, peek, htop, hnx]
  · intro t ht hact
    unfold peek at ht
    rw [htop] at ht
    cases ht
    simp only [do_action, peek, htop, hact]
    exact ⟨_, rfl, display_stack s⟩

/-- Witness for `nav_total`: the concrete depth-2 state. -/
theorem nav_total_witness :
    (pop exDeep).isSome = true ∧ (do_action exDeep).isSome = true := by
  have h := nav_total exDeep (by decide)
  exact ⟨h.1, h.2.2.2.2.2.1⟩

/-! ### Claim C7 -/

/-- The observable effect of `_touch` relative to a starting state: the
backlight is on, a backlight timer is armed, and it is a fresh one (the
generation advanced past the old timer's). -/
def touchedOpt (s : MState) : Option MState → Prop
  | none => False
  | some t => t.backlightOn = true ∧ t.blArmed = true ∧ s.blGen < t.blGen

/-- Claim C7: every navigation event, in any state where it applies
(`up` above the root, `prev`/`next` with the sibling reference present,
`action` on any non-empty stack), cancels the running backlight timer,
turns the backlight on and starts a fresh backlight timer. -/
theorem nav_touches (s : MState) (hne : s.stack ≠ []) :
    (1 < s.stack.length → touchedOpt s (do_up s))
    ∧ (∀ top p, peek s = some top → (s.arena top).prev = some p →
        touchedOpt s (do_prev s))
    ∧ (∀ top q, peek s = some top → (s.arena top).next = some q →
        touchedOpt s (do_next s))
    ∧ touchedOpt s (do_action s) := by
  obtain ⟨top, htop⟩ : ∃ top, s.stack.getLast? = some top := by
    cases h : s.stack.getLast? with
    | none => exact absurd (List.getLast?_eq_none_iff.mp h) hne
    | some t => exact ⟨t, rfl⟩
  have hdisp : ∀ u : MState, u.blGen = s.blGen → touchedOpt s (some (display u)) := by
    intro u hu
    refine ⟨display_backlightOn u, display_blArmed u, ?_⟩
    rw [display_blGen, hu]
    omega
  have hswap : ∀ i, touchedOpt s (swap s i) := by
    intro i
    unfold swap
    cases hs : s.stack with
    | nil => exact absurd hs hne
    | cons a rest => exact hdisp _ rfl
  refine ⟨?_, ?_, ?_, ?_⟩
  · intro hdepth
    simp only [do_up, pop, htop]
    rw [if_neg (show ¬s.stack.length = 1 from by omega)]
    simp only [Option.map_some']
    exact hdisp _ rfl
  · intro t p ht hp
    unfold peek at ht
    rw [htop] at ht
    cases ht
    simp only [do_prev, peek, htop, hp]
    exact hswap p
  · intro t q ht hq
    unfold peek at ht
    rw [htop] at ht
    cases ht
    simp only [do_next, peek, htop, hq]
    exact hswap q
  · simp only [do_action, peek, htop]
    have hgen : s.blGen ≤ (match (s.arena top).action with
        | some a => runAct s a
        | none => s).blGen := by
      cases (s.arena top).action with
      | none => exact le_refl _
      | some a => exact runAct_blGen s a
    refine ⟨display_backlightOn _, display_blArmed _, ?_⟩
    rw [display_blGen]
    omega

/-- Witness for `nav_touches`: in the depth-2 state, `up` and `prev`
both apply and touch the menu. -/
theorem nav_touches_witness :
    touchedOpt exDeep (do_up exDeep) ∧ touchedOpt exDeep (do_prev exDeep) := by
  have h := nav_touches exDeep (by decide)
  exact ⟨h.1 (by decide), h.2.1 1 0 rfl rfl⟩

/-! ### Claim C8 -/

/-- A successful `_draw_text` keeps the backlight as it was and arms
the update timer only if it was armed before or the backlight is on
(`_set_update_time` refuses to arm while the backlight is off). -/
lemma drawText_some (s : MState) (idx : ℕ) (t : MState)
    (h : drawText s idx = some t) :
    t.backlightOn = s.backlightOn
    ∧ (t.updArmed = true → s.updArmed = true ∨ s.backlightOn = true) := by
  simp only [drawText, Option.bind_eq_some, Option.map_eq_some'] at h
  obtain ⟨l0, h0, l1, h1, lcd1, hl1, lcd2, hl2, fo, hfo, ht⟩ := h
  subst ht
  unfold setUpdateTime
  split
  · rename_i hon
    exact ⟨rfl, fun _ => Or.inr hon⟩
  · exact ⟨rfl, fun hu => Or.inl hu⟩

/-- Claim C8: when the armed backlight timer fires, the backlight goes
off, the pending redraw timer is cancelled and the backlight timer is
spent; while the backlight is off the redraw timer cannot be armed
(assuming the invariant "armed redraw timer implies backlight on",
which every operation preserves), so a redraw-timer fire changes
nothing and the invisible display is never redrawn until the next
touch. -/
theorem dim_cancels_redraw (s : MState)
    (hinv : s.updArmed = true → s.backlightOn = true) :
    (s.blArmed = true →
        (dimFire s).backlightOn = false ∧ (dimFire s).updArmed = false
        ∧ (dimFire s).blArmed = false)
    ∧ (s.backlightOn = false → redrawFire s = some s)
    ∧ ((dimFire s).updArmed = true → (dimFire s).backlightOn = true)
    ∧ (∀ i, (push s i).updArmed = true → (push s i).backlightOn = true)
    ∧ (∀ i t, swap s i = some t → t.updArmed = true → t.backlightOn = true)
    ∧ (∀ t top, pop s = some (t, top) → t.updArmed = true → t.backlightOn = true)
    ∧ (∀ t, do_prev s = some t → t.updArmed = true → t.backlightOn = true)
    ∧ (∀ t, do_next s = some t → t.updArmed = true → t.backlightOn = true)
    ∧ (∀ t, do_action s = some t → t.updArmed = true → t.backlightOn = true)
    ∧ (∀ t, redrawFire s = some t → t.updArmed = true → t.backlightOn = true) := by
  have hdim : ∀ h : s.blArmed = true,
      (dimFire s).backlightOn = false ∧ (dimFire s).updArmed = false
      ∧ (dimFire s).blArmed = false := by
    intro h
    unfold dimFire
    rw [if_pos h]
    exact ⟨rfl, rfl, rfl⟩
  have hoff : s.backlightOn = false → redrawFire s = some s := by
    intro hb
    have hua : ¬s.updArmed = true := by
      intro hu
      rw [hinv hu] at hb
      cases hb
    unfold redrawFire
    rw [if_neg hua]
  have hdisp2 : ∀ u : MState, (display u).updArmed = true →
      (display u).backlightOn = true := fun u _ => display_backlightOn u
  refine ⟨hdim, hoff, ?_, ?_, ?_, ?_, ?_, ?_, ?_, ?_⟩
  · unfold dimFire
    split
    · intro hu
      cases hu
    · exact hinv
  · intro i
    exact hdisp2 _
  · intro i t hsw
    unfold swap at hsw
    cases hs : s.stack with
    | nil => rw [hs] at hsw; cases hsw
    | cons a rest =>
      rw [hs] at hsw
      cases hsw
      exact hdisp2 _
  · intro t top hp
    unfold pop at hp
    cases hl : s.stack.getLast? with
    | none => rw [hl] at hp; cases hp
    | some tp =>
      rw [hl] at hp
      simp only [] at hp
      by_cases h1 : s.stack.length = 1
      · rw [if_pos h1] at hp
        cases hp
        exact hinv
      · rw [if_neg h1] at hp
        cases hp
        exact hdisp2 _
  · intro t hp
    cases hl : peek s with
    | none =>
      simp only [do_prev, hl] at hp
      exact Option.noConfusion hp
    | some tp =>
      simp only [do_prev, hl] at hp
      cases hpv : (s.arena tp).prev with
      | none =>
        simp only [hpv] at hp
        cases hp
        exact hinv
      | some p =>
        simp only [hpv] at hp
        unfold swap at hp
        cases hs : s.stack with
        | nil =>
          rw [hs] at hp
          exact Option.noConfusion hp
        | cons a rest =>
          rw [hs] at hp
          cases hp
          exact hdisp2 _
  · intro t hp
    cases hl : peek s with
    | none =>
      simp only [do_next, hl] at hp
      exact Option.noConfusion hp
    | some tp =>
      simp only [do_next, hl] at hp
      cases hnx : (s.arena tp).next with
      | none =>
        simp only [hnx] at hp
        cases hp
        exact hinv
      | some q =>
        simp only [hnx] at hp
        unfold swap at hp
        cases hs : s.stack with
        | nil =>
          rw [hs] at hp
          exact Option.noConfusion hp
        | cons a rest =>
          rw [hs] at hp
          cases hp
          exact hdisp2 _
  · intro t hp
    cases hl : peek s with
    | none =>
      simp only [do_action, hl] at hp
      exact Option.noConfusion hp
    | some tp =>
      simp only [do_action, hl, Option.some.injEq] at hp
      rw [← hp]
      exact hdisp2 _
  · intro t hp
    unfold redrawFire at hp
    by_cases hu : s.updArmed = true
    · rw [if_pos hu] at hp
      cases hl : peek s with
      | none =>
        rw [hl] at hp
        cases hp
        intro hcon
        cases hcon
      | some top =>
        rw [hl] at hp
        have hd := drawText_some _ _ _ hp
        intro hu2
        rcases hd.2 hu2 with hcase | hcase
        · cases hcase
        · rw [hd.1]
          exact hcase
    · rw [if_neg hu] at hp
      cases hp
      exact hinv

/-- Witness for `dim_cancels_redraw`: the armed concrete state; the
fired backlight timer switches the backlight off and cancels the
redraw timer. -/
theorem dim_cancels_redraw_witness :
    (dimFire exRoot).backlightOn = false ∧ (dimFire exRoot).updArmed = false
    ∧ (dimFire exRoot).blArmed = false :=
  (dim_cancels_redraw exRoot (by decide)).1 rfl

end HD44780
